import Mathlib

/-!
# A verification model of `pytube/request.py`

This file gives a shallow embedding of the chunked range-fetch engine
(`stream`), the sequential-segment protocol (`seq_stream`), and the size
resolvers (`filesize`, `seq_filesize`) of `pytube/request.py`, and proves
the behavioural properties stated about them.

Modelling conventions:

* Bytes are modelled as `Char`, byte strings as `List Char`.
* The HTTP transport (`urllib`'s `urlopen`, wrapped by `_execute_request`)
  is an external collaborator.  It is modelled as a function from the
  index of the request (how many requests the fetch has issued so far)
  and the request itself to a `TransportResult`.  The index makes stubs
  such as "time out `k` times, then succeed" expressible.
* `stream` carries the byte window in the URL query string
  (`f"{url}&range={downloaded}-{stop_pos}"`); the `range_header` local
  computed at the top of the loop body is never used.  We keep the window
  as structured fields of the request next to the rendered URL.
* URLs are modelled structurally as a base plus the optional `sq` query
  parameter that `seq_stream`/`seq_filesize` set via
  `parse.urlencode(querys)`.
* A response body is a list of successive `response.read()` results; an
  exhausted body reads as empty.  (`read()` on an `http.client`
  response never raises `StopIteration`, so the `except StopIteration`
  arm of the drain loop in `stream` is unreachable and not modelled.)
* The `Content-Length` header of the probe response is three-valued:
  absent (`resp.info()["Content-Length"]` gives `None`, so `int(None)`
  raises an uncaught `TypeError`), present but unparseable (`ValueError`,
  caught by the `except (KeyError, IndexError, ValueError)` clause and
  logged), or a parsed integer.
-/

/-- The constant `default_range_size = 9437184` (9MB): both the placeholder initial
`file_size` and the chunk step of `stream`.  The model takes the constant
as a parameter `c` so that scenarios with a small chunk size are
expressible; the library value is this constant. -/
def defaultRangeSize : Nat := 9437184

/-- A URL, modelled structurally: the base (scheme, host, path and the
other query parameters) plus the optional `sq` segment-number parameter
that the sequential functions set. -/
structure Url where
  base : String
  sq : Option Nat
deriving DecidableEq, Repr

/-- One `_execute_request` call issued by `stream`: the URL it was built
from, the byte window carried in the URL query string
(`f"{url}&range={rangeStart}-{rangeStop}"`), and the extra headers passed
by the caller (`stream` passes none). -/
structure Request where
  base : String
  sq : Option Nat
  rangeStart : Nat
  rangeStop : Nat
  extraHeaders : List (String × String)
deriving DecidableEq, Repr

/-- The rendered URL of a request, as built by the source:
the base URL, the `sq` parameter when present, and the `range` query
parameter holding the byte window. -/
def Request.urlString (r : Request) : String :=
  r.base
    ++ (match r.sq with
        | none => ""
        | some k => "&sq=" ++ toString k)
    ++ "&range=" ++ toString r.rangeStart ++ "-" ++ toString r.rangeStop

/-- The header keys `_execute_request` sends: the base headers (a
randomly chosen `User-Agent` value and `accept-language`) updated with
the caller's extra headers.  Only the keys are modelled; the `User-Agent`
value is drawn at random from a fixed pool. -/
def baseHeaderKeys : List String := ["User-Agent", "accept-language"]

/-- All header keys of a request: base headers plus caller headers. -/
def headerKeys (r : Request) : List String :=
  baseHeaderKeys ++ r.extraHeaders.map Prod.fst

/-- The `Content-Length` header of a response, as observed through
`int(resp.info()["Content-Length"])`: absent (`info()` returns `None`,
`int(None)` raises `TypeError`), present but not an integer literal
(`int` raises `ValueError`), or parsed. -/
inductive CLHeader where
  | absent
  | malformed
  | value (n : Nat)
deriving DecidableEq, Repr

/-- Result of one transport call: a successful response (its successive
`read()` results and its `Content-Length` header), a `URLError` whose
reason is `socket.timeout`, an `http.client.IncompleteRead`, or any
other `URLError`. -/
inductive TransportResult where
  | success (reads : List (List Char)) (contentLength : CLHeader)
  | timeoutError
  | incompleteRead
  | otherError
deriving DecidableEq, Repr

/-- A transport: given the number of requests issued so far by the fetch
and the request, produce the result. -/
def Transport : Type := Nat → Request → TransportResult

/-- Observable events of a fetch, in order: a chunk GET attempt, the
oversized-range size probe, and a yielded chunk together with the value
of the `downloaded` counter just after it was accumulated. -/
inductive Event where
  | request (r : Request)
  | probe (r : Request)
  | chunk (body : List Char) (downloadedAfter : Nat)
deriving DecidableEq, Repr

/-- How a fetch ends: the while-loop condition became false (`finished`),
`MaxRetriesExceeded` was raised, an uncaught exception propagated
(`fatalError`), or the model's fuel ran out (the source loop would keep
running). -/
inductive StreamOutcome where
  | finished
  | maxRetriesExceeded
  | fatalError
  | outOfFuel
deriving DecidableEq, Repr

/-- Why the retry sub-loop of `stream` stopped without a response. -/
inductive RetryErr where
  | maxRetries
  | fatal
deriving DecidableEq, Repr

/-- The chunk request `stream` builds for one iteration:
`_execute_request(f"{url}&range={downloaded}-{stop_pos}", method="GET")`,
with no extra headers. -/
def chunkReq (u : Url) (d stop : Nat) : Request :=
  ⟨u.base, u.sq, d, stop, []⟩

/-- The oversized-range size probe request of `stream`:
`_execute_request(f"{url}&range=0-99999999999", method="GET")`. -/
def probeReq (u : Url) : Request :=
  ⟨u.base, u.sq, 0, 99999999999, []⟩

/-- The retry sub-loop of `stream` (lines 172-195): attempt the request
while `tries < 1 + max_retries`; swallow timeouts and incomplete reads,
counting them as attempts; propagate other `URLError`s; raise
`MaxRetriesExceeded` when the budget is exhausted.  `remaining` is
`1 + max_retries - tries`; `n` is the running request counter.  Returns
the request events, the response reads or the error, and the counter. -/
def retryLoop (t : Transport) (req : Request) :
    Nat → Nat → List Event × Except RetryErr (List (List Char)) × Nat
  | 0, n => ([], .error .maxRetries, n)
  | remaining + 1, n =>
    match t n req with
    | .success reads _ => ([.request req], .ok reads, n + 1)
    | .timeoutError =>
      let r := retryLoop t req remaining (n + 1)
      (.request req :: r.1, r.2.1, r.2.2)
    | .incompleteRead =>
      let r := retryLoop t req remaining (n + 1)
      (.request req :: r.1, r.2.1, r.2.2)
    | .otherError => ([.request req], .error .fatal, n + 1)

/-- The body-drain loop of `stream` (lines 208-218): repeatedly
`response.read()`; an empty read breaks the loop; a non-empty read is
added to `downloaded` and yielded.  Returns the chunk events and the
updated `downloaded`. -/
def drainReads : List (List Char) → Nat → List Event × Nat
  | [], d => ([], d)
  | r :: rs, d =>
    if r = [] then ([], d)
    else
      let d' := d + r.length
      let rest := drainReads rs d'
      (Event.chunk r d' :: rest.1, rest.2)

/-- The main loop of `stream` (lines 164-219), with `c` standing for
`default_range_size`.  State: `downloaded`, `file_size` (initially the
placeholder `c`), and the request counter `n`.  One fuel unit per
iteration of the `while downloaded < file_size` loop.  Each iteration:
compute `stop_pos = min(downloaded + c, file_size) - 1`, run the retry
sub-loop, then (while `file_size == default_range_size`) issue the size
probe - a parsed `Content-Length` replaces `file_size`, an unparseable
one is logged and ignored, an absent one raises an uncaught `TypeError`,
and a transport error from the probe propagates - then drain the
response body. -/
def streamLoop (t : Transport) (u : Url) (c mr : Nat) :
    Nat → Nat → Nat → Nat → List Event × StreamOutcome × Nat
  | fuel, d, fs, n =>
    if d < fs then
      match fuel with
      | 0 => ([], .outOfFuel, n)
      | fuel + 1 =>
        let stopPos := min (d + c) fs - 1
        let req := chunkReq u d stopPos
        match retryLoop t req (1 + mr) n with
        | (evs1, .error .maxRetries, n1) => (evs1, .maxRetriesExceeded, n1)
        | (evs1, .error .fatal, n1) => (evs1, .fatalError, n1)
        | (evs1, .ok reads, n1) =>
          let pres : List Event × Option Nat × Nat :=
            if fs = c then
              match t n1 (probeReq u) with
              | .success _ (.value sz) => ([.probe (probeReq u)], some sz, n1 + 1)
              | .success _ .malformed => ([.probe (probeReq u)], some fs, n1 + 1)
              | .success _ .absent => ([.probe (probeReq u)], none, n1 + 1)
              | _ => ([.probe (probeReq u)], none, n1 + 1)
            else ([], some fs, n1)
          match pres with
          | (evs2, none, n2) => (evs1 ++ evs2, .fatalError, n2)
          | (evs2, some fs', n2) =>
            let dr := drainReads reads d
            let rest := streamLoop t u c mr fuel dr.2 fs' n2
            (evs1 ++ evs2 ++ dr.1 ++ rest.1, rest.2.1, rest.2.2)
    else ([], .finished, n)

/-- A whole `stream(url, timeout, max_retries)` call: `downloaded = 0`,
`file_size = c` (the placeholder), request counter `0`. -/
def streamRun (t : Transport) (u : Url) (c mr fuel : Nat) :
    List Event × StreamOutcome :=
  let r := streamLoop t u c mr fuel 0 c 0
  (r.1, r.2.1)

/-- The body of a chunk event. -/
def chunkBodyOf : Event → Option (List Char)
  | .chunk b _ => some b
  | _ => none

/-- Concatenation of all yielded chunk bodies of a trace. -/
def chunksConcat (evs : List Event) : List Char :=
  (evs.filterMap chunkBodyOf).flatten

/-- The `downloaded` values observed at the chunk boundaries of a trace. -/
def downloads (evs : List Event) : List Nat :=
  evs.filterMap fun e =>
    match e with
    | .chunk _ x => some x
    | _ => none

/-- Number of chunks yielded in a trace. -/
def chunkCount (evs : List Event) : Nat :=
  (evs.filterMap chunkBodyOf).length

/-- The byte windows of the chunk GET attempts of a trace (the probe is
not included). -/
def reqWindows (evs : List Event) : List (Nat × Nat) :=
  evs.filterMap fun e =>
    match e with
    | .request r => some (r.rangeStart, r.rangeStop)
    | _ => none

/-- Number of chunk GET attempts in a trace (the probe not included). -/
def attemptCount (evs : List Event) : Nat :=
  (reqWindows evs).length

/-- Number of size-probe requests in a trace. -/
def probeCount (evs : List Event) : Nat :=
  (evs.filterMap fun e =>
    match e with
    | .probe r => some r
    | _ => none).length

/-- The `sq` parameters of all requests (attempts and probes) of a
trace, in order. -/
def reqSqs (evs : List Event) : List (Option Nat) :=
  evs.filterMap fun e =>
    match e with
    | .request r => some r.sq
    | .probe r => some r.sq
    | .chunk _ _ => none

/-- The slice of a resource a faithful server returns for the byte
window of a request: bytes `rangeStart .. rangeStop` clipped to the
resource. -/
def serve (res : List Char) (r : Request) : List Char :=
  (res.drop r.rangeStart).take (r.rangeStop + 1 - r.rangeStart)

/-- An always-succeeding transport for a segmented resource: request
`sq = k` is answered from segment `k` (a plain resource is the constant
family), the body is delivered in one read, and `Content-Length`
reflects the bytes served. -/
def honestSeqTransport (segs : Nat → List Char) : Transport :=
  fun _ r => .success [serve (segs (r.sq.getD 0)) r]
    (.value (serve (segs (r.sq.getD 0)) r).length)

/-- An always-succeeding transport for a single (non-segmented)
resource. -/
def honestT (res : List Char) : Transport :=
  honestSeqTransport fun _ => res

/-- Split a byte string on CRLF boundaries, as `segment_data.split(b'\r\n')`
does: scanning left to right, each `\r\n` pair ends a line; the result is
never empty. -/
def splitCRLF : List Char → List (List Char)
  | [] => [[]]
  | '\r' :: '\n' :: rest => [] :: splitCRLF rest
  | ch :: rest =>
    match splitCRLF rest with
    | [] => [[ch]]
    | l :: ls => (ch :: l) :: ls

/-- The literal part of the pattern `Segment-Count: (\d+)`. -/
def segCountLit : List Char := "Segment-Count: ".toList

/-- Parse a digit run as `int(match.group(1))` does. -/
def digitsToNat (ds : List Char) : Nat :=
  ds.foldl (fun a ch => a * 10 + (ch.toNat - '0'.toNat)) 0

/-- Model of `re.search(b'Segment-Count: (\\d+)', line)`: the leftmost position
where the literal followed by at least one digit matches; the capture is
the maximal digit run there.  Returns the parsed capture. -/
def segCountSearch : List Char → Option Nat
  | [] => none
  | ch :: rest =>
    let here := ch :: rest
    let after := here.drop segCountLit.length
    let ds := after.takeWhile Char.isDigit
    if here.take segCountLit.length = segCountLit ∧ ds ≠ [] then
      some (digitsToNat ds)
    else
      segCountSearch rest

/-- The segment-count scan of `seq_stream` (lines 139-142): iterate over
all lines, assigning `segment_count` on every match; the variable starts
unassigned (`none`), so the last matching line wins and no match at all
leaves it unassigned (a `NameError` at its first use). -/
def seqStreamSegmentCount (lines : List (List Char)) : Option Nat :=
  lines.foldl
    (fun acc line =>
      match segCountSearch line with
      | some n => some n
      | none => acc)
    none

/-- The segment-count scan of `seq_filesize` (lines 258-267): the same
loop, but `segment_count` is initialised to `0`, so a parsed count is
indistinguishable from no match when it is `0`. -/
def seqFilesizeSegmentCount (lines : List (List Char)) : Nat :=
  lines.foldl
    (fun acc line =>
      match segCountSearch line with
      | some n => n
      | none => acc)
    0

/-- The segment loop of `seq_stream` (lines 145-152): for
`seq_num = 1` while `seq_num <= segment_count`, set the `sq` query
parameter and delegate to `stream`.  `iters` is
`segment_count + 1 - seq_num`. -/
def seqLoop (t : Transport) (c mr fuel : Nat) (base : String) :
    Nat → Nat → Nat → List Event × StreamOutcome × Nat
  | 0, _, n => ([], .finished, n)
  | iters + 1, seqNum, n =>
    let r := streamLoop t ⟨base, some seqNum⟩ c mr fuel 0 c n
    match r.2.1 with
    | .finished =>
      let rest := seqLoop t c mr fuel base iters (seqNum + 1) r.2.2
      (r.1 ++ rest.1, rest.2.1, rest.2.2)
    | out => (r.1, out, r.2.2)

/-- A whole `seq_stream` call (lines 111-153): fetch segment 0 via
`stream` with `sq = 0`, yielding its chunks and accumulating them in
`segment_data`; split the accumulated bytes on CRLF and scan for the
segment count; then fetch segments `1 .. segment_count` in order.  If no
line matched, `segment_count` was never assigned and its first use
raises a `NameError` (modelled as a fatal outcome). -/
def seqStreamRun (t : Transport) (c mr fuel : Nat) (base : String) :
    List Event × StreamOutcome :=
  let r0 := streamLoop t ⟨base, some 0⟩ c mr fuel 0 c 0
  match r0.2.1 with
  | .finished =>
    match seqStreamSegmentCount (splitCRLF (chunksConcat r0.1)) with
    | none => (r0.1, .fatalError)
    | some count =>
      let rest := seqLoop t c mr fuel base count 1 r0.2.2
      (r0.1 ++ rest.1, rest.2.1)
  | out => (r0.1, out)

/-- The regular expression `seq_filesize` searches for, as it appears in
the `RegexMatchError` it raises. -/
def segCountPattern : String := "Segment-Count: (\\d+)"

/-- Failures of the size resolvers: `RegexMatchError(caller, pattern)`
from `seq_filesize`, or the `KeyError`/`ValueError` escaping
`int(head(url)["content-length"])` when the header is absent or
unparseable. -/
inductive SizeErr where
  | regexMatch (caller : String) (pattern : String)
  | contentLengthMissing
deriving DecidableEq, Repr

/-- The HEAD loop of `seq_filesize` (lines 273-280): for `seq_num = 1`
while `seq_num <= segment_count`, HEAD the segment URL and add its
`content-length` to the running total.  `ht sq` is the parsed
`content-length` of segment `sq` (`none`: header absent or unparseable,
which raises out of the loop).  Returns the `sq` numbers HEADed, in
order, and the total or the error. -/
def headLoop (ht : Nat → Option Nat) : Nat → Nat → Nat → List Nat × Except SizeErr Nat
  | 0, _, acc => ([], .ok acc)
  | iters + 1, sq, acc =>
    match ht sq with
    | none => ([sq], .error .contentLengthMissing)
    | some v =>
      let rest := headLoop ht iters (sq + 1) (acc + v)
      (sq :: rest.1, rest.2)

/-- A whole `seq_filesize` call past its one GET (lines 232-281): the
segment-0 body has been downloaded (`seg0`), its length starts the
total; scan for the segment count; raise
`RegexMatchError('seq_filesize', pattern)` when the scan result is `0`;
otherwise HEAD segments `1 .. segment_count` and sum.  Returns the list
of HEADed `sq` numbers and the result. -/
def seqFilesizeRun (seg0 : List Char) (ht : Nat → Option Nat) :
    List Nat × Except SizeErr Nat :=
  let count := seqFilesizeSegmentCount (splitCRLF seg0)
  if count = 0 then ([], .error (.regexMatch "seq_filesize" segCountPattern))
  else headLoop ht count 1 seg0.length

/-- Model of `filesize` with its `lru_cache` (lines 222-229): on a cache hit
return the memoized value with no requests; on a miss, one HEAD request
parses `content-length` (`ht`); successful results are cached.  Returns
the result, the number of HTTP requests issued, and the new cache. -/
def filesizeCached (ht : String → Option Nat) (cache : List (String × Nat))
    (url : String) : Except SizeErr Nat × Nat × List (String × Nat) :=
  match List.lookup url cache with
  | some v => (.ok v, 0, cache)
  | none =>
    match ht url with
    | some n => (.ok n, 1, (url, n) :: cache)
    | none => (.error .contentLengthMissing, 1, cache)

/-- Model of `seq_filesize` with its `lru_cache` (lines 232-281): on a cache hit
return the memoized value with no requests; on a miss run the
computation (`getBody url` is the segment-0 GET body for that URL,
`ht url` its per-segment HEAD results); the request count is the one GET
plus one HEAD per visited segment; successful results are cached. -/
def seqFilesizeCached (getBody : String → List Char)
    (ht : String → Nat → Option Nat) (cache : List (String × Nat))
    (url : String) : Except SizeErr Nat × Nat × List (String × Nat) :=
  match List.lookup url cache with
  | some v => (.ok v, 0, cache)
  | none =>
    let r := seqFilesizeRun (getBody url) (ht url)
    match r.2 with
    | .ok n => (.ok n, 1 + r.1.length, (url, n) :: cache)
    | .error e => (.error e, 1 + r.1.length, cache)

/-- A transport stub whose size probe succeeds but carries an
unparseable `Content-Length` (the probe is recognised by its
characteristic oversized window), while chunk requests are served
faithfully. -/
def probeFailT (res : List Char) : Transport :=
  fun _ r =>
    if r.rangeStop = 99999999999 then .success [] .malformed
    else .success [serve res r] (.value (serve res r).length)

/-- A transport stub that fails with a per-request timeout for the
first `k` requests and then behaves like the faithful transport. -/
def timeoutThenT (k : Nat) (res : List Char) : Transport :=
  fun i r => if i < k then .timeoutError else honestT res i r

/-- The 25-byte resource of the end-to-end scenario. -/
def scenarioRes25 : List Char := "ABCDEFGHIJKLMNOPQRSTUVWXY".toList

/-- The URL of the concrete scenarios. -/
def scenarioUrl : Url := ⟨"http://u", none⟩

/-- A segment-0 body with two `Segment-Count` lines declaring different
counts. -/
def c4Body : List Char := "Segment-Count: 2\r\nSegment-Count: 5".toList

/-- A segmented resource whose segment 0 is `c4Body` and whose other
segments are two bytes each. -/
def c4Segs : Nat → List Char := fun k => if k = 0 then c4Body else "AB".toList

/-- A segment-0 body whose only `Segment-Count` line declares zero. -/
def c8Body : List Char := "Segment-Count: 0".toList

/-- A segment-0 body declaring a zero segment count on its second line. -/
def c10Body : List Char := "X: 1\r\nSegment-Count: 0".toList

/-- A segmented resource declaring two further segments of two bytes
each. -/
def c7Segs : Nat → List Char :=
  fun k => if k = 0 then "Segment-Count: 2\r\nhdr".toList else "AB".toList
theorem retryLoop_success (t : Transport) (req : Request) (reads : List (List Char))
    (cl : CLHeader) (n rem : Nat) (h : t n req = .success reads cl) :
    retryLoop t req (rem + 1) n = ([.request req], .ok reads, n + 1) := by
  simp [retryLoop, h]

theorem honest_serve (segs : Nat → List Char) (n : Nat) (u : Url) (d stop : Nat) :
    honestSeqTransport segs n (chunkReq u d stop) =
      .success [((segs (u.sq.getD 0)).drop d).take (stop + 1 - d)]
        (.value (((segs (u.sq.getD 0)).drop d).take (stop + 1 - d)).length) := rfl

theorem streamLoop_honest_step (segs : Nat → List Char) (u : Url) (c mr fuel d n : Nat)
    (hc : 0 < c) (hd : d < (segs (u.sq.getD 0)).length)
    (hne : (segs (u.sq.getD 0)).length ≠ c) :
    streamLoop (honestSeqTransport segs) u c mr (fuel + 1) d (segs (u.sq.getD 0)).length n =
      (Event.request (chunkReq u d (min (d + c) (segs (u.sq.getD 0)).length - 1)) ::
         Event.chunk
           (((segs (u.sq.getD 0)).drop d).take (min (d + c) (segs (u.sq.getD 0)).length - d))
           (min (d + c) (segs (u.sq.getD 0)).length) ::
         (streamLoop (honestSeqTransport segs) u c mr fuel
            (min (d + c) (segs (u.sq.getD 0)).length) (segs (u.sq.getD 0)).length (n + 1)).1,
       (streamLoop (honestSeqTransport segs) u c mr fuel
          (min (d + c) (segs (u.sq.getD 0)).length) (segs (u.sq.getD 0)).length (n + 1)).2) := by
  set res := segs (u.sq.getD 0) with hres
  set S := res.length with hS
  have hd1 : d + 1 ≤ min (d + c) S := le_min (by omega) (by omega)
  have hstop : min (d + c) S - 1 + 1 - d = min (d + c) S - d := by omega
  have hlen : ((res.drop d).take (min (d + c) S - d)).length = min (d + c) S - d := by
    rw [List.length_take, List.length_drop]
    omega
  have hslice : (res.drop d).take (min (d + c) S - d) ≠ [] := by
    intro hnil
    rw [hnil] at hlen
    simp at hlen
    omega
  have hretry : retryLoop (honestSeqTransport segs) (chunkReq u d (min (d + c) S - 1)) (1 + mr) n
      = ([.request (chunkReq u d (min (d + c) S - 1))],
         .ok [(res.drop d).take (min (d + c) S - d)], n + 1) := by
    rw [Nat.add_comm 1 mr]
    rw [retryLoop_success _ _ _ _ _ _ (honest_serve segs n u d (min (d + c) S - 1))]
    rw [hstop]
  rw [streamLoop.eq_def]
  simp only [if_pos hd]
  rw [hretry]
  simp only [if_neg hne]
  simp only [drainReads, if_neg hslice, List.length_take, List.length_drop]
  have harith : d + ((d + c) ⊓ S - d) ⊓ (res.length - d) = (d + c) ⊓ S := by omega
  rw [harith]
  simp [drainReads]

theorem streamLoop_of_not_lt (t : Transport) (u : Url) (c mr fuel d fs n : Nat)
    (h : ¬ d < fs) : streamLoop t u c mr fuel d fs n = ([], .finished, n) := by
  rw [streamLoop.eq_def]
  simp [h]

theorem chunksConcat_cons_request (r : Request) (evs : List Event) :
    chunksConcat (.request r :: evs) = chunksConcat evs := rfl

theorem chunksConcat_cons_probe (r : Request) (evs : List Event) :
    chunksConcat (.probe r :: evs) = chunksConcat evs := rfl

theorem chunksConcat_cons_chunk (b : List Char) (x : Nat) (evs : List Event) :
    chunksConcat (.chunk b x :: evs) = b ++ chunksConcat evs := rfl

theorem downloads_cons_request (r : Request) (evs : List Event) :
    downloads (.request r :: evs) = downloads evs := rfl

theorem downloads_cons_chunk (b : List Char) (x : Nat) (evs : List Event) :
    downloads (.chunk b x :: evs) = x :: downloads evs := rfl

theorem probeCount_cons_request (r : Request) (evs : List Event) :
    probeCount (.request r :: evs) = probeCount evs := rfl

theorem probeCount_cons_chunk (b : List Char) (x : Nat) (evs : List Event) :
    probeCount (.chunk b x :: evs) = probeCount evs := rfl

theorem reqSqs_cons_request (r : Request) (evs : List Event) :
    reqSqs (.request r :: evs) = r.sq :: reqSqs evs := rfl

theorem reqSqs_cons_chunk (b : List Char) (x : Nat) (evs : List Event) :
    reqSqs (.chunk b x :: evs) = reqSqs evs := rfl

theorem chunkCount_cons_request (r : Request) (evs : List Event) :
    chunkCount (.request r :: evs) = chunkCount evs := rfl

theorem downloads_cons_probe (r : Request) (evs : List Event) :
    downloads (.probe r :: evs) = downloads evs := rfl

theorem probeCount_cons_probe (r : Request) (evs : List Event) :
    probeCount (.probe r :: evs) = probeCount evs + 1 := by
  simp [probeCount, Nat.add_comm]

theorem reqSqs_cons_probe (r : Request) (evs : List Event) :
    reqSqs (.probe r :: evs) = r.sq :: reqSqs evs := rfl

theorem chunkCount_cons_probe (r : Request) (evs : List Event) :
    chunkCount (.probe r :: evs) = chunkCount evs := rfl

theorem chunkCount_cons_chunk (b : List Char) (x : Nat) (evs : List Event) :
    chunkCount (.chunk b x :: evs) = chunkCount evs + 1 := by
  simp [chunkCount, chunkBodyOf, Nat.add_comm]

theorem streamLoop_honest_post (segs : Nat → List Char) (u : Url) (c mr : Nat)
    (hc : 0 < c) (hne : (segs (u.sq.getD 0)).length ≠ c) :
    ∀ fuel d n, d ≤ (segs (u.sq.getD 0)).length →
      (segs (u.sq.getD 0)).length - d ≤ fuel →
      ∃ evs n',
        streamLoop (honestSeqTransport segs) u c mr fuel d (segs (u.sq.getD 0)).length n
          = (evs, .finished, n') ∧
        chunksConcat evs = (segs (u.sq.getD 0)).drop d ∧
        List.Chain' (· < ·) (d :: downloads evs) ∧
        probeCount evs = 0 ∧
        (∀ q ∈ reqSqs evs, q = u.sq) ∧
        (∀ b x, Event.chunk b x ∈ evs → b ≠ []) ∧
        (∀ m, (segs (u.sq.getD 0)).length - d = m * c → chunkCount evs = m) := by
  intro fuel
  induction fuel with
  | zero =>
    intro d n hdS hfuel
    have hdeq : d = (segs (u.sq.getD 0)).length := by omega
    refine ⟨[], n, ?_, ?_, ?_, rfl, ?_, ?_, ?_⟩
    · exact streamLoop_of_not_lt _ _ _ _ _ _ _ _ (by omega)
    · simp [chunksConcat, hdeq]
    · simp [downloads]
    · simp [reqSqs]
    · simp
    · intro m hm
      have : m * c = 0 := by omega
      have hm0 : m = 0 := by
        rcases Nat.mul_eq_zero.mp this with h | h
        · exact h
        · omega
      simp [chunkCount, hm0]
  | succ fuel ih =>
    intro d n hdS hfuel
    rcases Nat.lt_or_ge d (segs (u.sq.getD 0)).length with hd | hd
    · -- one more iteration
      have hd1 : d + 1 ≤ min (d + c) (segs (u.sq.getD 0)).length := le_min (by omega) (by omega)
      have hstep := streamLoop_honest_step segs u c mr fuel d n hc hd hne
      obtain ⟨evs', n', heq, hconcat, hchain, hprobe, hsqs, hnonnil, hcount⟩ :=
        ih (min (d + c) (segs (u.sq.getD 0)).length) (n + 1) (min_le_right _ _) (by omega)
      refine ⟨Event.request (chunkReq u d (min (d + c) (segs (u.sq.getD 0)).length - 1)) ::
        Event.chunk
          (((segs (u.sq.getD 0)).drop d).take (min (d + c) (segs (u.sq.getD 0)).length - d))
          (min (d + c) (segs (u.sq.getD 0)).length) :: evs', n', ?_, ?_, ?_, ?_, ?_, ?_, ?_⟩
      · rw [hstep, heq]
      · rw [chunksConcat_cons_request, chunksConcat_cons_chunk, hconcat]
        rw [show (segs (u.sq.getD 0)).drop (min (d + c) (segs (u.sq.getD 0)).length)
              = ((segs (u.sq.getD 0)).drop d).drop
                  (min (d + c) (segs (u.sq.getD 0)).length - d) by
          rw [List.drop_drop]
          congr 1
          omega]
        exact List.take_append_drop _ _
      · rw [downloads_cons_request, downloads_cons_chunk]
        rw [List.chain'_cons]
        exact ⟨by omega, hchain⟩
      · rw [probeCount_cons_request, probeCount_cons_chunk]
        exact hprobe
      · intro q hq
        rw [reqSqs_cons_request, reqSqs_cons_chunk] at hq
        rcases List.mem_cons.mp hq with h | h
        · rw [h]; rfl
        · exact hsqs q h
      · intro b x hb
        rcases List.mem_cons.mp hb with h | h
        · cases h
        · rcases List.mem_cons.mp h with h2 | h2
          · cases h2
            have hlen : (((segs (u.sq.getD 0)).drop d).take
                (min (d + c) (segs (u.sq.getD 0)).length - d)).length
                = min (d + c) (segs (u.sq.getD 0)).length - d := by
              rw [List.length_take, List.length_drop]
              omega
            intro hnil
            rw [hnil] at hlen
            simp at hlen
            omega
          · exact hnonnil b x h2
      · intro m hm
        rcases m with _ | m
        · omega
        · rw [chunkCount_cons_request, chunkCount_cons_chunk]
          have hK : (m + 1) * c = m * c + c := by ring
          have : (segs (u.sq.getD 0)).length - min (d + c) (segs (u.sq.getD 0)).length
              = m * c := by
            rcases le_or_lt (d + c) (segs (u.sq.getD 0)).length with h | h
            · rw [min_eq_left h]
              omega
            · rw [min_eq_right (by omega)]
              omega
          rw [hcount m this]
    · -- loop condition false
      refine ⟨[], n, ?_, ?_, ?_, rfl, ?_, ?_, ?_⟩
      · exact streamLoop_of_not_lt _ _ _ _ _ _ _ _ (by omega)
      · have hdeq : d = (segs (u.sq.getD 0)).length := by omega
        simp [chunksConcat, hdeq]
      · simp [downloads]
      · simp [reqSqs]
      · simp
      · intro m hm
        have : m * c = 0 := by omega
        have hm0 : m = 0 := by
          rcases Nat.mul_eq_zero.mp this with h | h
          · exact h
          · omega
        simp [chunkCount, hm0]

theorem honest_probe (segs : Nat → List Char) (n : Nat) (u : Url) :
    honestSeqTransport segs n (probeReq u) =
      .success [(segs (u.sq.getD 0)).take 100000000000]
        (.value ((segs (u.sq.getD 0)).take 100000000000).length) := rfl

theorem streamLoop_honest_first (segs : Nat → List Char) (u : Url) (c mr f n : Nat)
    (hc : 0 < c) (hbig : (segs (u.sq.getD 0)).length ≤ 99999999999)
    (hS0 : 0 < (segs (u.sq.getD 0)).length) :
    streamLoop (honestSeqTransport segs) u c mr (f + 1) 0 c n =
      (Event.request (chunkReq u 0 (c - 1)) :: Event.probe (probeReq u) ::
        Event.chunk ((segs (u.sq.getD 0)).take c) (min c (segs (u.sq.getD 0)).length) ::
        (streamLoop (honestSeqTransport segs) u c mr f
          (min c (segs (u.sq.getD 0)).length) (segs (u.sq.getD 0)).length (n + 2)).1,
       (streamLoop (honestSeqTransport segs) u c mr f
          (min c (segs (u.sq.getD 0)).length) (segs (u.sq.getD 0)).length (n + 2)).2) := by
  set res := segs (u.sq.getD 0) with hres
  set S := res.length with hS
  have e1 : min (0 + c) c = c := by omega
  have e2 : c - 1 + 1 - 0 = c := by omega
  have hretry : retryLoop (honestSeqTransport segs) (chunkReq u 0 (c - 1)) (1 + mr) n
      = ([.request (chunkReq u 0 (c - 1))], .ok [res.take c], n + 1) := by
    rw [Nat.add_comm 1 mr]
    rw [retryLoop_success _ _ _ _ _ _ (honest_serve segs n u 0 (c - 1))]
    rw [e2]
    simp
  have hplen : (res.take 100000000000).length = S := by
    rw [List.length_take]
    omega
  have htake : res.take c ≠ [] := by
    intro hnil
    have : (res.take c).length = 0 := by rw [hnil]; rfl
    rw [List.length_take] at this
    omega
  have htklen : (res.take c).length = min c S := by
    rw [List.length_take]
  rw [streamLoop.eq_def]
  simp only [if_pos (show (0 : Nat) < c from hc)]
  rw [e1, hretry]
  simp only [if_pos rfl]
  rw [honest_probe, hplen]
  simp only [drainReads, if_neg htake, htklen]
  simp [drainReads, hres, hS]

theorem streamLoop_honest_first_empty (segs : Nat → List Char) (u : Url) (c mr f n : Nat)
    (hc : 0 < c) (hS0 : (segs (u.sq.getD 0)).length = 0) :
    streamLoop (honestSeqTransport segs) u c mr (f + 1) 0 c n =
      ([Event.request (chunkReq u 0 (c - 1)), Event.probe (probeReq u)], .finished, n + 2) := by
  have hresnil : segs (u.sq.getD 0) = [] := List.length_eq_zero.mp hS0
  have e1 : min (0 + c) c = c := by omega
  have e2 : c - 1 + 1 - 0 = c := by omega
  have hretry : retryLoop (honestSeqTransport segs) (chunkReq u 0 (c - 1)) (1 + mr) n
      = ([.request (chunkReq u 0 (c - 1))], .ok [(segs (u.sq.getD 0)).take c], n + 1) := by
    rw [Nat.add_comm 1 mr]
    rw [retryLoop_success _ _ _ _ _ _ (honest_serve segs n u 0 (c - 1))]
    rw [e2]
    simp
  have hrec := streamLoop_of_not_lt (honestSeqTransport segs) u c mr f 0 0 (n + 2) (by omega)
  rw [streamLoop.eq_def]
  simp only [if_pos (show (0 : Nat) < c from hc)]
  rw [e1, hretry]
  simp only [if_pos rfl]
  rw [honest_probe]
  simp [hresnil, drainReads, hrec]

theorem streamLoop_honest_run (segs : Nat → List Char) (u : Url) (c mr fuel n : Nat)
    (hc : 0 < c) (hfuel : (segs (u.sq.getD 0)).length < fuel)
    (hbig : (segs (u.sq.getD 0)).length ≤ 99999999999) :
    ∃ evs n',
      streamLoop (honestSeqTransport segs) u c mr fuel 0 c n = (evs, .finished, n') ∧
      chunksConcat evs = segs (u.sq.getD 0) ∧
      List.Chain' (· < ·) (0 :: downloads evs) ∧
      probeCount evs = 1 ∧
      (∀ q ∈ reqSqs evs, q = u.sq) ∧
      reqSqs evs ≠ [] ∧
      (∀ b x, Event.chunk b x ∈ evs → b ≠ []) ∧
      (∀ m, (segs (u.sq.getD 0)).length = m * c → chunkCount evs = m) := by
  obtain ⟨f, rfl⟩ : ∃ f, fuel = f + 1 := ⟨fuel - 1, by omega⟩
  rcases Nat.eq_zero_or_pos (segs (u.sq.getD 0)).length with hS0 | hS0
  · refine ⟨[Event.request (chunkReq u 0 (c - 1)), Event.probe (probeReq u)], n + 2,
      streamLoop_honest_first_empty segs u c mr f n hc hS0, ?_, ?_, rfl, ?_, ?_, ?_, ?_⟩
    · rw [List.length_eq_zero.mp hS0]
      rfl
    · simp [downloads]
    · intro q hq
      have hrs : reqSqs [Event.request (chunkReq u 0 (c - 1)), Event.probe (probeReq u)]
          = [u.sq, u.sq] := rfl
      rw [hrs] at hq
      rcases List.mem_cons.mp hq with h | h
      · exact h
      · rcases List.mem_cons.mp h with h2 | h2
        · exact h2
        · cases h2
    · intro hnil
      cases hnil
    · intro b x hb
      rcases List.mem_cons.mp hb with h | h
      · cases h
      · rcases List.mem_cons.mp h with h2 | h2
        · cases h2
        · cases h2
    · intro m hm
      have hmc : m * c = 0 := by omega
      have hm0 : m = 0 := by
        rcases Nat.mul_eq_zero.mp hmc with h | h
        · exact h
        · omega
      simp [chunkCount, chunkBodyOf, hm0]
  · rcases le_or_lt (segs (u.sq.getD 0)).length c with hSc | hSc
    · -- resource fits in a single chunk
      have hminc : min c (segs (u.sq.getD 0)).length = (segs (u.sq.getD 0)).length :=
        min_eq_right hSc
      have htake : (segs (u.sq.getD 0)).take c = segs (u.sq.getD 0) :=
        List.take_of_length_le hSc
      have hfirst := streamLoop_honest_first segs u c mr f n hc hbig hS0
      rw [hminc, htake] at hfirst
      rw [streamLoop_of_not_lt (honestSeqTransport segs) u c mr f
        (segs (u.sq.getD 0)).length (segs (u.sq.getD 0)).length (n + 2) (by omega)] at hfirst
      refine ⟨[Event.request (chunkReq u 0 (c - 1)), Event.probe (probeReq u),
        Event.chunk (segs (u.sq.getD 0)) (segs (u.sq.getD 0)).length], n + 2, ?_, ?_, ?_,
        rfl, ?_, ?_, ?_, ?_⟩
      · simpa using hfirst
      · simp [chunksConcat, chunkBodyOf]
      · simp [downloads]
        omega
      · intro q hq
        have hrs : reqSqs [Event.request (chunkReq u 0 (c - 1)), Event.probe (probeReq u),
            Event.chunk (segs (u.sq.getD 0)) (segs (u.sq.getD 0)).length] = [u.sq, u.sq] := rfl
        rw [hrs] at hq
        rcases List.mem_cons.mp hq with h | h
        · exact h
        · rcases List.mem_cons.mp h with h2 | h2
          · exact h2
          · cases h2
      · intro hnil
        cases hnil
      · intro b x hb
        rcases List.mem_cons.mp hb with h | h
        · cases h
        · rcases List.mem_cons.mp h with h2 | h2
          · cases h2
          · rcases List.mem_cons.mp h2 with h3 | h3
            · cases h3
              intro hnil
              rw [hnil] at hS0
              simp at hS0
            · cases h3
      · intro m hm
        rcases m with _ | m
        · omega
        · rcases m with _ | m
          · simp [chunkCount, chunkBodyOf]
          · exfalso
            have hK : (m + 1 + 1) * c = m * c + c + c := by ring
            omega
    · -- more than one chunk
      have hminc : min c (segs (u.sq.getD 0)).length = c := min_eq_left (le_of_lt hSc)
      have hne : (segs (u.sq.getD 0)).length ≠ c := by omega
      have hfirst := streamLoop_honest_first segs u c mr f n hc hbig hS0
      rw [hminc] at hfirst
      obtain ⟨evs', n', heq, hconcat, hchain, hprobe, hsqs, hnonnil, hcount⟩ :=
        streamLoop_honest_post segs u c mr hc hne f c (n + 2) (le_of_lt hSc) (by omega)
      rw [heq] at hfirst
      refine ⟨Event.request (chunkReq u 0 (c - 1)) :: Event.probe (probeReq u) ::
        Event.chunk ((segs (u.sq.getD 0)).take c) c :: evs', n', ?_, ?_, ?_, ?_, ?_, ?_, ?_, ?_⟩
      · simpa using hfirst
      · rw [chunksConcat_cons_request, chunksConcat_cons_probe, chunksConcat_cons_chunk,
          hconcat]
        exact List.take_append_drop _ _
      · rw [downloads_cons_request, downloads_cons_probe, downloads_cons_chunk,
          List.chain'_cons]
        exact ⟨hc, hchain⟩
      · rw [probeCount_cons_request, probeCount_cons_probe, probeCount_cons_chunk, hprobe]
      · intro q hq
        rw [reqSqs_cons_request, reqSqs_cons_probe, reqSqs_cons_chunk] at hq
        rcases List.mem_cons.mp hq with h | h
        · exact h
        · rcases List.mem_cons.mp h with h2 | h2
          · exact h2
          · exact hsqs q h2
      · rw [reqSqs_cons_request]
        intro hnil
        cases hnil
      · intro b x hb
        rcases List.mem_cons.mp hb with h | h
        · cases h
        · rcases List.mem_cons.mp h with h2 | h2
          · cases h2
          · rcases List.mem_cons.mp h2 with h3 | h3
            · cases h3
              intro hnil
              have hl : ((segs (u.sq.getD 0)).take c).length = 0 := by rw [hnil]; rfl
              rw [List.length_take] at hl
              omega
            · exact hnonnil b x h3
      · intro m hm
        rcases m with _ | m
        · omega
        · have hK : (m + 1) * c = m * c + c := by ring
          have hrest : (segs (u.sq.getD 0)).length - c = m * c := by omega
          rw [chunkCount_cons_request, chunkCount_cons_probe, chunkCount_cons_chunk,
            hcount m hrest]

theorem chunksConcat_append (l1 l2 : List Event) :
    chunksConcat (l1 ++ l2) = chunksConcat l1 ++ chunksConcat l2 := by
  simp [chunksConcat, List.filterMap_append]

theorem downloads_append (l1 l2 : List Event) :
    downloads (l1 ++ l2) = downloads l1 ++ downloads l2 := by
  simp [downloads, List.filterMap_append]

theorem probeCount_append (l1 l2 : List Event) :
    probeCount (l1 ++ l2) = probeCount l1 + probeCount l2 := by
  simp [probeCount, List.filterMap_append]

theorem reqSqs_append (l1 l2 : List Event) :
    reqSqs (l1 ++ l2) = reqSqs l1 ++ reqSqs l2 := by
  simp [reqSqs, List.filterMap_append]

theorem chunkCount_append (l1 l2 : List Event) :
    chunkCount (l1 ++ l2) = chunkCount l1 + chunkCount l2 := by
  simp [chunkCount, List.filterMap_append]

theorem attemptCount_append (l1 l2 : List Event) :
    attemptCount (l1 ++ l2) = attemptCount l1 + attemptCount l2 := by
  simp [attemptCount, reqWindows, List.filterMap_append]

theorem attemptCount_replicate_request (m : Nat) (r : Request) :
    attemptCount (List.replicate m (.request r)) = m := by
  induction m with
  | zero => rfl
  | succ m ih =>
    rw [List.replicate_succ]
    have : attemptCount (Event.request r :: List.replicate m (.request r))
        = attemptCount (List.replicate m (.request r)) + 1 := by
      simp [attemptCount, reqWindows, Nat.add_comm]
    omega

theorem chunksConcat_replicate_request (m : Nat) (r : Request) :
    chunksConcat (List.replicate m (.request r)) = [] := by
  induction m with
  | zero => rfl
  | succ m ih =>
    rw [List.replicate_succ, chunksConcat_cons_request, ih]

theorem probeCount_replicate_request (m : Nat) (r : Request) :
    probeCount (List.replicate m (.request r)) = 0 := by
  induction m with
  | zero => rfl
  | succ m ih =>
    rw [List.replicate_succ, probeCount_cons_request, ih]

theorem retryLoop_timeout_step (t : Transport) (req : Request) (rem n : Nat)
    (h : t n req = .timeoutError) :
    retryLoop t req (rem + 1) n
      = (.request req :: (retryLoop t req rem (n + 1)).1,
         (retryLoop t req rem (n + 1)).2.1, (retryLoop t req rem (n + 1)).2.2) := by
  simp [retryLoop, h]

theorem retryLoop_timeoutThenT (k : Nat) (res : List Char) (req : Request) :
    ∀ rem n, n ≤ k →
      (k - n < rem →
        retryLoop (timeoutThenT k res) req rem n
          = (List.replicate (k - n + 1) (.request req), .ok [serve res req], k + 1)) ∧
      (rem ≤ k - n →
        retryLoop (timeoutThenT k res) req rem n
          = (List.replicate rem (.request req), .error .maxRetries, n + rem)) := by
  intro rem
  induction rem with
  | zero =>
    intro n hn
    refine ⟨fun h => absurd h (by omega), fun _ => ?_⟩
    simp [retryLoop]
  | succ rem ih =>
    intro n hn
    constructor
    · intro hlt
      rcases lt_or_le n k with hnk | hnk
      · have ht : timeoutThenT k res n req = .timeoutError := by
          simp [timeoutThenT, hnk]
        rw [retryLoop_timeout_step _ _ _ _ ht]
        rw [(ih (n + 1) (by omega)).1 (by omega)]
        rw [show k - n + 1 = k - (n + 1) + 1 + 1 from by omega]
        simp [List.replicate_succ]
      · have hnk' : n = k := by omega
        have ht : timeoutThenT k res n req
            = .success [serve res req] (.value (serve res req).length) := by
          simp [timeoutThenT, hnk', honestT, honestSeqTransport]
        rw [retryLoop_success _ _ _ _ _ _ ht]
        rw [show k - n = 0 from by omega, hnk']
        rfl
    · intro hle
      have hnk : n < k := by omega
      have ht : timeoutThenT k res n req = .timeoutError := by
        simp [timeoutThenT, hnk]
      rw [retryLoop_timeout_step _ _ _ _ ht]
      rw [(ih (n + 1) (by omega)).2 (by omega)]
      rw [List.replicate_succ]
      rw [show n + 1 + rem = n + (rem + 1) from by omega]

theorem serve_chunk_full (res : List Char) (u : Url) (c : Nat) (hSc : res.length ≤ c)
    (hc : 0 < c) :
    serve res (chunkReq u 0 (c - 1)) = res := by
  show (res.drop 0).take (c - 1 + 1 - 0) = res
  rw [show c - 1 + 1 - 0 = c from by omega]
  simp [List.take_of_length_le hSc]

theorem stream_retry_budget_core (k : Nat) (res : List Char) (u : Url) (c mr : Nat)
    (hS0 : 0 < res.length) (hSc : res.length ≤ c) (hcbig : c ≤ 99999999999) :
    (k ≤ mr →
      streamRun (timeoutThenT k res) u c mr 1
        = (List.replicate (k + 1) (.request (chunkReq u 0 (c - 1)))
            ++ [.probe (probeReq u), .chunk res res.length], .finished)) ∧
    (mr < k →
      streamRun (timeoutThenT k res) u c mr 1
        = (List.replicate (mr + 1) (.request (chunkReq u 0 (c - 1))), .maxRetriesExceeded)) := by
  have h0c : 0 < c := lt_of_lt_of_le hS0 hSc
  have hmin : min (0 + c) c = c := by omega
  have hserve : serve res (chunkReq u 0 (c - 1)) = res := serve_chunk_full res u c hSc h0c
  constructor
  · intro hk
    have hretry := ((retryLoop_timeoutThenT k res (chunkReq u 0 (c - 1))) (1 + mr) 0
      (Nat.zero_le k)).1 (by omega)
    rw [show k - 0 = k from rfl] at hretry
    have hprobe : timeoutThenT k res (k + 1) (probeReq u)
        = .success [serve res (probeReq u)] (.value (serve res (probeReq u)).length) := by
      simp [timeoutThenT, show ¬ k + 1 < k from by omega, honestT, honestSeqTransport]
    have htk : serve res (probeReq u) = res := by
      show (res.drop 0).take (99999999999 + 1 - 0) = res
      rw [List.drop_zero]
      exact List.take_of_length_le (by omega)
    have hresnil : res ≠ [] := by
      intro h
      rw [h] at hS0
      simp at hS0
    have hrec := streamLoop_of_not_lt (timeoutThenT k res) u c mr 0 res.length res.length
      (k + 2) (by omega)
    show (let r := streamLoop (timeoutThenT k res) u c mr 1 0 c 0
          (r.1, r.2.1)) = _
    rw [show (1 : Nat) = 0 + 1 from rfl, streamLoop.eq_def]
    simp only [if_pos h0c]
    rw [hmin, hretry, hserve]
    simp only [if_pos rfl]
    rw [hprobe, htk]
    simp only [drainReads, if_neg hresnil]
    simp [hrec, drainReads]
  · intro hmk
    have hretry := ((retryLoop_timeoutThenT k res (chunkReq u 0 (c - 1))) (1 + mr) 0
      (Nat.zero_le k)).2 (by omega)
    show (let r := streamLoop (timeoutThenT k res) u c mr 1 0 c 0
          (r.1, r.2.1)) = _
    rw [show (1 : Nat) = 0 + 1 from rfl, streamLoop.eq_def]
    simp only [if_pos h0c]
    rw [hmin, hretry]
    simp [show (1 : Nat) + mr = mr + 1 from by omega]

theorem probeCount_drainReads (rs : List (List Char)) (d : Nat) :
    probeCount (drainReads rs d).1 = 0 := by
  induction rs generalizing d with
  | nil => rfl
  | cons r rs ih =>
    rw [drainReads.eq_def]
    by_cases h : r = []
    · simp [h]
      rfl
    · simp only [if_neg h]
      rw [probeCount_cons_chunk]
      exact ih _

theorem drainReads_single_snd (sl : List Char) (d : Nat) :
    (drainReads [sl] d).2 = d ∨ (drainReads [sl] d).2 = d + sl.length := by
  rw [drainReads.eq_def]
  by_cases h : sl = []
  · simp [h]
  · simp only [if_neg h]
    right
    rfl

theorem streamLoop_probeFail (res : List Char) (u : Url) (c mr : Nat)
    (hSc : res.length < c) (hcb : c ≤ 99999999999) :
    ∀ fuel d n, d ≤ res.length →
      probeCount (streamLoop (probeFailT res) u c mr fuel d c n).1 = fuel ∧
      (streamLoop (probeFailT res) u c mr fuel d c n).2.1 = .outOfFuel := by
  intro fuel
  induction fuel with
  | zero =>
    intro d n hd
    rw [streamLoop.eq_def]
    simp [show d < c from by omega]
    rfl
  | succ fuel ih =>
    intro d n hd
    have hd' : d < c := by omega
    have hmin : min (d + c) c = c := by omega
    have hserve : probeFailT res n (chunkReq u d (c - 1))
        = .success [serve res (chunkReq u d (c - 1))]
            (.value (serve res (chunkReq u d (c - 1))).length) := by
      simp [probeFailT, chunkReq, serve, show ¬ (c - 1 = 99999999999) from by omega]
    have hretry : retryLoop (probeFailT res) (chunkReq u d (c - 1)) (1 + mr) n
        = ([.request (chunkReq u d (c - 1))], .ok [serve res (chunkReq u d (c - 1))], n + 1) := by
      rw [Nat.add_comm 1 mr]
      exact retryLoop_success _ _ _ _ _ _ hserve
    have hpfAll : ∀ m, probeFailT res m (probeReq u) = .success [] .malformed := by
      intro m
      have hcond : (probeReq u).rangeStop = 99999999999 := rfl
      unfold probeFailT
      rw [if_pos hcond]
    have hslen : (serve res (chunkReq u d (c - 1))).length ≤ res.length - d := by
      show ((res.drop d).take (c - 1 + 1 - d)).length ≤ res.length - d
      rw [List.length_take, List.length_drop]
      omega
    have hdr := drainReads_single_snd (serve res (chunkReq u d (c - 1))) d
    have hd2 : (drainReads [serve res (chunkReq u d (c - 1))] d).2 ≤ res.length := by
      rcases hdr with h | h
      · rw [h]
        exact hd
      · rw [h]
        calc d + (serve res (chunkReq u d (c - 1))).length
            ≤ d + (res.length - d) := Nat.add_le_add_left hslen d
          _ = res.length := Nat.add_sub_cancel' hd
    have hrest := ih (drainReads [serve res (chunkReq u d (c - 1))] d).2 (n + 2) hd2
    rw [streamLoop.eq_def]
    simp only [if_pos hd', hmin, hretry, hpfAll, if_pos (Eq.refl c), if_true]
    constructor
    · rw [probeCount_append, probeCount_append, probeCount_append,
        probeCount_drainReads, hrest.1]
      simp [probeCount]
      omega
    · exact hrest.2

theorem foldl_lastMatch (f : List Char → Option Nat) (lines : List (List Char)) :
    ∀ acc : Option Nat,
      lines.foldl (fun a l => match f l with | some n => some n | none => a) acc
        = match (lines.filterMap f).getLast? with | some n => some n | none => acc := by
  induction lines using List.reverseRecOn with
  | nil => intro acc; rfl
  | append_singleton l x ih =>
    intro acc
    rw [List.foldl_append, List.filterMap_append]
    cases hfx : f x with
    | none =>
      simp only [List.foldl_cons, List.foldl_nil, hfx]
      rw [ih acc]
      simp [List.filterMap, hfx]
    | some m =>
      simp only [List.foldl_cons, List.foldl_nil, hfx]
      have : List.filterMap f [x] = [m] := by simp [List.filterMap, hfx]
      rw [this, List.getLast?_concat]

theorem foldl_lastMatchD (f : List Char → Option Nat) (lines : List (List Char)) :
    ∀ acc : Nat,
      lines.foldl (fun a l => match f l with | some n => n | none => a) acc
        = ((lines.filterMap f).getLast?).getD acc := by
  induction lines using List.reverseRecOn with
  | nil => intro acc; rfl
  | append_singleton l x ih =>
    intro acc
    rw [List.foldl_append, List.filterMap_append]
    cases hfx : f x with
    | none =>
      simp only [List.foldl_cons, List.foldl_nil, hfx]
      rw [ih acc]
      simp [List.filterMap, hfx]
    | some m =>
      simp only [List.foldl_cons, List.foldl_nil, hfx]
      have : List.filterMap f [x] = [m] := by simp [List.filterMap, hfx]
      rw [this, List.getLast?_concat]
      rfl

theorem seqStreamSegmentCount_eq (lines : List (List Char)) :
    seqStreamSegmentCount lines = (lines.filterMap segCountSearch).getLast? := by
  rw [seqStreamSegmentCount, foldl_lastMatch]
  cases h : (lines.filterMap segCountSearch).getLast? <;> rfl

theorem seqFilesizeSegmentCount_eq (lines : List (List Char)) :
    seqFilesizeSegmentCount lines = ((lines.filterMap segCountSearch).getLast?).getD 0 := by
  rw [seqFilesizeSegmentCount, foldl_lastMatchD]

theorem headLoop_total (sz : Nat → Nat) :
    ∀ (iters sq acc : Nat),
      headLoop (fun q => some (sz q)) iters sq acc
        = ((List.range iters).map (· + sq),
           .ok (acc + ((List.range iters).map (fun i => sz (i + sq))).sum)) := by
  intro iters
  induction iters with
  | zero => intro sq acc; simp [headLoop]
  | succ iters ih =>
    intro sq acc
    rw [headLoop]
    simp only [ih]
    rw [List.range_succ_eq_map, List.map_cons, List.map_map, List.map_cons, List.map_map,
      List.sum_cons]
    have hA : List.map ((fun x => x + sq) ∘ Nat.succ) (List.range iters)
        = List.map (fun x => x + (sq + 1)) (List.range iters) :=
      List.map_congr_left (fun i _ => by simp [Function.comp]; omega)
    have hB : List.map ((fun i => sz (i + sq)) ∘ Nat.succ) (List.range iters)
        = List.map (fun i => sz (i + (sq + 1))) (List.range iters) :=
      List.map_congr_left (fun i _ => by
        simp only [Function.comp]
        congr 1
        omega)
    rw [hA, hB]
    simp [Nat.add_assoc]

theorem seqLoop_honest (segs : Nat → List Char) (base : String) (c mr fuel : Nat)
    (hc : 0 < c)
    (hfuel : ∀ k, (segs k).length < fuel)
    (hbig : ∀ k, (segs k).length ≤ 99999999999) :
    ∀ (iters seqNum n : Nat),
      ∃ (traces : Nat → List Event) (n' : Nat),
        seqLoop (honestSeqTransport segs) c mr fuel base iters seqNum n
          = (((List.range iters).map (fun i => traces (seqNum + i))).flatten, .finished, n') ∧
        ∀ i, i < iters →
          chunksConcat (traces (seqNum + i)) = segs (seqNum + i) ∧
          (∀ q ∈ reqSqs (traces (seqNum + i)), q = some (seqNum + i)) ∧
          reqSqs (traces (seqNum + i)) ≠ [] := by
  intro iters
  induction iters with
  | zero =>
    intro seqNum n
    refine ⟨fun _ => [], n, ?_, ?_⟩
    · rfl
    · intro i hi
      omega
  | succ iters ih =>
    intro seqNum n
    obtain ⟨evs0, n0, heq0, hconcat0, _, _, hsqs0, hne0, _, _⟩ :=
      streamLoop_honest_run segs ⟨base, some seqNum⟩ c mr fuel n hc
        (hfuel seqNum) (hbig seqNum)
    obtain ⟨traces', n'', heq', hprops'⟩ := ih (seqNum + 1) n0
    have hmapeq : List.map (fun i => if seqNum + i = seqNum then evs0
          else traces' (seqNum + i)) (List.range (iters + 1))
        = evs0 :: List.map (fun i => traces' (seqNum + 1 + i)) (List.range iters) := by
      rw [List.range_succ_eq_map, List.map_cons, List.map_map]
      congr 1
      · simp
      · apply List.map_congr_left
        intro i _
        simp only [Function.comp]
        rw [if_neg (by omega : ¬ seqNum + Nat.succ i = seqNum)]
        congr 1
        omega
    refine ⟨fun k => if k = seqNum then evs0 else traces' k, n'', ?_, ?_⟩
    · show seqLoop (honestSeqTransport segs) c mr fuel base (iters + 1) seqNum n
        = ((List.map (fun i => if seqNum + i = seqNum then evs0
            else traces' (seqNum + i)) (List.range (iters + 1))).flatten, .finished, n'')
      rw [seqLoop, heq0]
      simp only []
      rw [heq', hmapeq, List.flatten_cons]
    · intro i hi
      rcases Nat.eq_zero_or_pos i with hi0 | hip
      · subst hi0
        simp only [Nat.add_zero, if_pos rfl]
        exact ⟨hconcat0, hsqs0, hne0⟩
      · obtain ⟨j, rfl⟩ : ∃ j, i = j + 1 := ⟨i - 1, by omega⟩
        simp only [if_neg (show ¬ seqNum + (j + 1) = seqNum from by omega)]
        have := hprops' j (by omega)
        rw [show seqNum + 1 + j = seqNum + (j + 1) from by omega] at this
        exact this

theorem retryLoop_head (t : Transport) (req : Request) (rem n : Nat) :
    ∃ tail, (retryLoop t req (rem + 1) n).1 = .request req :: tail := by
  cases h : t n req with
  | success reads cl => exact ⟨[], by simp [retryLoop, h]⟩
  | timeoutError => exact ⟨(retryLoop t req rem (n + 1)).1, by simp [retryLoop, h]⟩
  | incompleteRead => exact ⟨(retryLoop t req rem (n + 1)).1, by simp [retryLoop, h]⟩
  | otherError => exact ⟨[], by simp [retryLoop, h]⟩

theorem streamLoop_head (t : Transport) (u : Url) (c mr fuel d fs n : Nat) (hd : d < fs) :
    ∃ rest, (streamLoop t u c mr (fuel + 1) d fs n).1
      = .request (chunkReq u d (min (d + c) fs - 1)) :: rest := by
  obtain ⟨tail, htail⟩ := retryLoop_head t (chunkReq u d (min (d + c) fs - 1)) mr n
  rw [streamLoop.eq_def]
  simp only [if_pos hd]
  rw [Nat.add_comm 1 mr]
  split
  next evs1 n1 heq =>
    rw [heq] at htail
    exact ⟨tail, htail⟩
  next evs1 n1 heq =>
    rw [heq] at htail
    exact ⟨tail, htail⟩
  next evs1 reads n1 heq =>
    rw [heq] at htail
    have htail2 : evs1 = Event.request (chunkReq u d (min (d + c) fs - 1)) :: tail := htail
    split
    next evs2 n2 heq2 =>
      refine ⟨tail ++ evs2, ?_⟩
      show evs1 ++ evs2 = _
      rw [htail2]
      rfl
    next evs2 fs' n2 heq2 =>
      refine ⟨tail ++ evs2
        ++ (drainReads reads d).1
        ++ (streamLoop t u c mr fuel (drainReads reads d).2 fs' n2).1, ?_⟩
      show evs1 ++ evs2 ++ (drainReads reads d).1
          ++ (streamLoop t u c mr fuel (drainReads reads d).2 fs' n2).1 = _
      rw [htail2]
      simp [List.append_assoc]

/-- C1: for every resource served by an always-succeeding transport, `stream`
terminates, the concatenation of all yielded chunks is exactly the resource
(hence has exactly `S` bytes), the `downloaded` values observed at chunk
boundaries are strictly increasing, no yielded chunk is empty, and when `S`
is an exact multiple of the chunk size `c` the run yields exactly `S / c`
chunks, with no trailing empty chunk. -/
theorem stream_yields_exactly_filesize (res : List Char) (u : Url) (c mr : Nat)
    (hc : 0 < c) (hbig : res.length ≤ 99999999999)
    (evs : List Event) (out : StreamOutcome)
    (hrun : streamRun (honestT res) u c mr (res.length + 1) = (evs, out)) :
    out = .finished ∧
    (chunksConcat evs).length = res.length ∧
    chunksConcat evs = res ∧
    List.Chain' (· < ·) (downloads evs) ∧
    (∀ b x, Event.chunk b x ∈ evs → b ≠ []) ∧
    (∀ m, res.length = m * c → chunkCount evs = m) := by
  obtain ⟨evs0, n', heq, hconcat, hchain, _, _, _, hnonnil, hm⟩ :=
    streamLoop_honest_run (fun _ => res) u c mr (res.length + 1) 0 hc
      (Nat.lt_succ_self res.length) hbig
  have hsr : streamRun (honestT res) u c mr (res.length + 1) = (evs0, .finished) := by
    unfold streamRun honestT
    rw [heq]
  rw [hrun] at hsr
  have hevs : evs = evs0 := congrArg Prod.fst hsr
  have hout : out = .finished := congrArg Prod.snd hsr
  subst hevs
  refine ⟨hout, ?_, hconcat, hchain.tail, hnonnil, hm⟩
  rw [hconcat]

/-- C1 witness: a four-byte resource with chunk size two. -/
theorem stream_yields_exactly_filesize_witness :
    (streamRun (honestT "abcd".toList) scenarioUrl 2 0 ("abcd".toList.length + 1)).2
      = .finished ∧
    chunksConcat
      (streamRun (honestT "abcd".toList) scenarioUrl 2 0 ("abcd".toList.length + 1)).1
      = "abcd".toList ∧
    chunkCount
      (streamRun (honestT "abcd".toList) scenarioUrl 2 0 ("abcd".toList.length + 1)).1
      = 2 := by
  have h := stream_yields_exactly_filesize "abcd".toList scenarioUrl 2 0 (by decide)
    (by decide)
    (streamRun (honestT "abcd".toList) scenarioUrl 2 0 ("abcd".toList.length + 1)).1
    (streamRun (honestT "abcd".toList) scenarioUrl 2 0 ("abcd".toList.length + 1)).2 rfl
  exact ⟨h.1, h.2.2.1, h.2.2.2.2.2 2 (by decide)⟩

/-- C2: against a transport that times out exactly `k` times and then
succeeds, a fetch with `max_retries ≥ k` succeeds for that chunk after
exactly `k + 1` attempts (plus the one probe), and a fetch with
`max_retries < k` raises `MaxRetriesExceeded` after exactly
`max_retries + 1` attempts, yielding nothing. -/
theorem stream_retry_budget (k : Nat) (res : List Char) (u : Url) (c mr : Nat)
    (hS0 : 0 < res.length) (hSc : res.length ≤ c) (hcbig : c ≤ 99999999999) :
    (k ≤ mr →
      streamRun (timeoutThenT k res) u c mr 1
        = (List.replicate (k + 1) (.request (chunkReq u 0 (c - 1)))
            ++ [.probe (probeReq u), .chunk res res.length], .finished) ∧
      attemptCount (streamRun (timeoutThenT k res) u c mr 1).1 = k + 1) ∧
    (mr < k →
      streamRun (timeoutThenT k res) u c mr 1
        = (List.replicate (mr + 1) (.request (chunkReq u 0 (c - 1))),
           .maxRetriesExceeded) ∧
      attemptCount (streamRun (timeoutThenT k res) u c mr 1).1 = mr + 1) := by
  have hcore := stream_retry_budget_core k res u c mr hS0 hSc hcbig
  constructor
  · intro hk
    have he := hcore.1 hk
    refine ⟨he, ?_⟩
    rw [show (streamRun (timeoutThenT k res) u c mr 1).1
        = List.replicate (k + 1) (.request (chunkReq u 0 (c - 1)))
            ++ [.probe (probeReq u), .chunk res res.length] from congrArg Prod.fst he]
    rw [attemptCount_append, attemptCount_replicate_request]
    rfl
  · intro hmk
    have he := hcore.2 hmk
    refine ⟨he, ?_⟩
    rw [show (streamRun (timeoutThenT k res) u c mr 1).1
        = List.replicate (mr + 1) (.request (chunkReq u 0 (c - 1)))
        from congrArg Prod.fst he]
    rw [attemptCount_replicate_request]

/-- C2 witness: two timeouts, budgets of two and one. -/
theorem stream_retry_budget_witness :
    (streamRun (timeoutThenT 2 "abc".toList) scenarioUrl 10 2 1
      = (List.replicate (2 + 1) (.request (chunkReq scenarioUrl 0 (10 - 1)))
          ++ [.probe (probeReq scenarioUrl), .chunk "abc".toList "abc".toList.length],
         .finished)) ∧
    (streamRun (timeoutThenT 2 "abc".toList) scenarioUrl 10 1 1
      = (List.replicate (1 + 1) (.request (chunkReq scenarioUrl 0 (10 - 1))),
         .maxRetriesExceeded)) :=
  ⟨((stream_retry_budget 2 "abc".toList scenarioUrl 10 2 (by decide) (by decide)
      (by decide)).1 (by decide)).1,
   ((stream_retry_budget 2 "abc".toList scenarioUrl 10 1 (by decide) (by decide)
      (by decide)).2 (by decide)).1⟩

/-- C3: with chunk size 10 and a 25-byte resource on an always-succeeding
transport, `stream` issues exactly the three range windows `0-9`, `10-19`,
`20-24` plus one size probe, yields 25 bytes in total, and the `downloaded`
counter takes the values 10, 20, 25 at the chunk boundaries. -/
theorem stream_chunk10_size25_scenario :
    (streamRun (honestT scenarioRes25) scenarioUrl 10 0 26).2 = .finished ∧
    reqWindows (streamRun (honestT scenarioRes25) scenarioUrl 10 0 26).1 =
      [(0, 9), (10, 19), (20, 24)] ∧
    probeCount (streamRun (honestT scenarioRes25) scenarioUrl 10 0 26).1 = 1 ∧
    (chunksConcat (streamRun (honestT scenarioRes25) scenarioUrl 10 0 26).1).length = 25 ∧
    downloads (streamRun (honestT scenarioRes25) scenarioUrl 10 0 26).1 = [10, 20, 25] := by
  decide

/-- C5 counterexample: with a transport whose probe succeeds but carries an
unparseable `Content-Length`, the probe is issued again on every later
iteration - here three times in three iterations - refuting "issued at most
once per fetch". -/
theorem stream_probe_reattempted_counterexample :
    ¬ probeCount (streamRun (probeFailT "abcde".toList) scenarioUrl 10 0 3).1 ≤ 1 := by
  decide

/-- C5 (amended): the probe is issued exactly while `file_size` still equals
the placeholder: on an always-succeeding transport the probe fires exactly
once per fetch, and when the probe repeatedly fails to yield a usable
`Content-Length`, `file_size` stays at the placeholder, the fetch keeps
using the placeholder as its target (never finishing), and the probe is
re-attempted on every later iteration - once per loop iteration. -/
theorem stream_probe_policy :
    (∀ (segs : Nat → List Char) (u : Url) (c mr fuel : Nat),
      0 < c → (segs (u.sq.getD 0)).length < fuel →
      (segs (u.sq.getD 0)).length ≤ 99999999999 →
      probeCount (streamRun (honestSeqTransport segs) u c mr fuel).1 = 1) ∧
    (∀ (res : List Char) (u : Url) (c mr fuel : Nat),
      res.length < c → c ≤ 99999999999 →
      probeCount (streamRun (probeFailT res) u c mr fuel).1 = fuel ∧
      (streamRun (probeFailT res) u c mr fuel).2 = .outOfFuel) := by
  constructor
  · intro segs u c mr fuel hc hf hb
    obtain ⟨evs0, n', heq, _, _, hp, _, _, _, _⟩ :=
      streamLoop_honest_run segs u c mr fuel 0 hc hf hb
    have hsr : streamRun (honestSeqTransport segs) u c mr fuel = (evs0, .finished) := by
      unfold streamRun
      rw [heq]
    rw [congrArg Prod.fst hsr]
    exact hp
  · intro res u c mr fuel hrc hcb
    have h := streamLoop_probeFail res u c mr hrc hcb fuel 0 0 (Nat.zero_le _)
    exact ⟨h.1, h.2⟩

/-- C5 witness: one probe on the honest transport; three probes in three
iterations when the probe result is unusable. -/
theorem stream_probe_policy_witness :
    probeCount (streamRun (honestSeqTransport (fun _ => "abc".toList))
      scenarioUrl 10 0 4).1 = 1 ∧
    probeCount (streamRun (probeFailT "abcde".toList) scenarioUrl 10 0 3).1 = 3 ∧
    (streamRun (probeFailT "abcde".toList) scenarioUrl 10 0 3).2 = .outOfFuel :=
  ⟨stream_probe_policy.1 (fun _ => "abc".toList) scenarioUrl 10 0 4 (by decide)
      (by decide) (by decide),
   (stream_probe_policy.2 "abcde".toList scenarioUrl 10 0 3 (by decide) (by decide)).1,
   (stream_probe_policy.2 "abcde".toList scenarioUrl 10 0 3 (by decide) (by decide)).2⟩

/-- C6 counterexample: in the concrete 25-byte scenario the first chunk GET
request carries no `Range` HTTP header at all - its header keys are just the
base `User-Agent` and `accept-language` - refuting "carrying an HTTP `Range`
header". -/
theorem stream_no_range_header_counterexample :
    (streamRun (honestT scenarioRes25) scenarioUrl 10 0 26).1.head? =
      some (.request ⟨"http://u", none, 0, 9, []⟩) ∧
    "Range" ∉ headerKeys ⟨"http://u", none, 0, 9, []⟩ := by
  decide

/-- C6 (amended): every chunk iteration of `stream` opens with a GET request
whose byte window `[downloaded, min(downloaded + c, fileSize) - 1]` is
carried as the `range` query parameter of the request URL, with no `Range`
HTTP header among its headers. -/
theorem stream_range_in_url_query (t : Transport) (u : Url) (c mr fuel d fs n : Nat)
    (hd : d < fs) :
    ∃ rest, (streamLoop t u c mr (fuel + 1) d fs n).1
        = .request (chunkReq u d (min (d + c) fs - 1)) :: rest ∧
      "Range" ∉ headerKeys (chunkReq u d (min (d + c) fs - 1)) ∧
      (chunkReq u d (min (d + c) fs - 1)).rangeStart = d ∧
      (chunkReq u d (min (d + c) fs - 1)).rangeStop = min (d + c) fs - 1 ∧
      (chunkReq u d (min (d + c) fs - 1)).urlString
        = u.base ++ (match u.sq with
            | none => ""
            | some k => "&sq=" ++ toString k)
          ++ "&range=" ++ toString d ++ "-" ++ toString (min (d + c) fs - 1) := by
  obtain ⟨rest, hrest⟩ := streamLoop_head t u c mr fuel d fs n hd
  refine ⟨rest, hrest, ?_, rfl, rfl, rfl⟩
  show ¬ "Range" ∈ baseHeaderKeys ++ List.map Prod.fst []
  decide

/-- C6 witness: the first iteration of the 25-byte scenario. -/
theorem stream_range_in_url_query_witness :
    ∃ rest, (streamLoop (honestT scenarioRes25) scenarioUrl 10 0 (25 + 1) 0 10 0).1
        = .request (chunkReq scenarioUrl 0 (min (0 + 10) 10 - 1)) :: rest ∧
      "Range" ∉ headerKeys (chunkReq scenarioUrl 0 (min (0 + 10) 10 - 1)) ∧
      (chunkReq scenarioUrl 0 (min (0 + 10) 10 - 1)).rangeStart = 0 ∧
      (chunkReq scenarioUrl 0 (min (0 + 10) 10 - 1)).rangeStop = min (0 + 10) 10 - 1 ∧
      (chunkReq scenarioUrl 0 (min (0 + 10) 10 - 1)).urlString
        = scenarioUrl.base ++ (match scenarioUrl.sq with
            | none => ""
            | some k => "&sq=" ++ toString k)
          ++ "&range=" ++ toString 0 ++ "-" ++ toString (min (0 + 10) 10 - 1) :=
  stream_range_in_url_query (honestT scenarioRes25) scenarioUrl 10 0 25 0 10 0 (by decide)

/-- C4 counterexample: a segment-0 body with two `Segment-Count` lines
declaring 2 and then 5: the scan of `seq_stream` keeps the value of the
last matching line (5), not the first (2), and the run indeed requests
segment 5. -/
theorem seq_stream_first_match_counterexample :
    seqStreamSegmentCount (splitCRLF c4Body) ≠
      ((splitCRLF c4Body).filterMap segCountSearch).head? ∧
    seqStreamSegmentCount (splitCRLF c4Body) = some 5 ∧
    ((splitCRLF c4Body).filterMap segCountSearch).head? = some 2 ∧
    some 5 ∈ reqSqs (seqStreamRun (honestSeqTransport c4Segs) 100 0 50 "http://s").1 := by
  decide

/-- C4 (amended): after segment 0 completes, `seq_stream` splits the
accumulated bytes on CRLF boundaries and scans every line for
`Segment-Count: <digits>`; the segment count it uses is the one parsed from
the last matching line (every match overwrites the previous one), and it is
unassigned when no line matches. -/
theorem seq_stream_uses_last_segment_count (body : List Char) :
    seqStreamSegmentCount (splitCRLF body)
      = ((splitCRLF body).filterMap segCountSearch).getLast? :=
  seqStreamSegmentCount_eq (splitCRLF body)

/-- C8 counterexample: a body whose only `Segment-Count` line declares zero
has a matching line, yet `seq_filesize` raises the pattern-not-matched error
instead of returning the sum for zero further segments. -/
theorem seq_filesize_zero_count_counterexample :
    (splitCRLF c8Body).filterMap segCountSearch = [0] ∧
    seqFilesizeRun c8Body (fun _ => some 7) =
      ([], .error (.regexMatch "seq_filesize" segCountPattern)) :=
  ⟨by decide, rfl⟩

/-- C8 (amended): if no line of segment 0 matches `Segment-Count: <digits>`,
`seq_filesize` fails with `RegexMatchError` naming the caller and the
pattern and issues no HEAD requests; otherwise, when the parsed count `N`
(the last match) is nonzero, it HEADs segments `1 .. N` in order and returns
segment 0's length plus the sum of their `content-length`s (a parsed count
of zero is indistinguishable from no match and also raises). -/
theorem seq_filesize_spec :
    (∀ (seg0 : List Char) (ht : Nat → Option Nat),
      (splitCRLF seg0).filterMap segCountSearch = [] →
      seqFilesizeRun seg0 ht = ([], .error (.regexMatch "seq_filesize" segCountPattern))) ∧
    (∀ (seg0 : List Char) (sz : Nat → Nat) (N : Nat),
      seqFilesizeSegmentCount (splitCRLF seg0) = N → 0 < N →
      seqFilesizeRun seg0 (fun sq => some (sz sq))
        = ((List.range N).map (· + 1),
           .ok (seg0.length + ((List.range N).map (fun i => sz (i + 1))).sum))) := by
  constructor
  · intro seg0 ht hnone
    have hcnt : seqFilesizeSegmentCount (splitCRLF seg0) = 0 := by
      rw [seqFilesizeSegmentCount_eq, hnone]
      rfl
    unfold seqFilesizeRun
    rw [hcnt]
    simp
  · intro seg0 sz N hN hpos
    unfold seqFilesizeRun
    rw [hN, if_neg (by omega)]
    exact headLoop_total sz N 1 seg0.length

/-- C8 witness: a body with no count line errors with no HEADs; a body
declaring three segments HEADs exactly segments 1, 2, 3 and sums. -/
theorem seq_filesize_spec_witness :
    seqFilesizeRun "no count here".toList (fun _ => some 7)
      = ([], .error (.regexMatch "seq_filesize" segCountPattern)) ∧
    seqFilesizeRun "junk\r\nSegment-Count: 3\r\nmore".toList (fun _ => some 7)
      = ([1, 2, 3], .ok 49) :=
  ⟨seq_filesize_spec.1 "no count here".toList (fun _ => some 7) (by decide),
   (seq_filesize_spec.2 "junk\r\nSegment-Count: 3\r\nmore".toList (fun _ => 7) 3
      (by decide) (by decide)).trans rfl⟩

theorem filesizeCached_hit (ht : String → Option Nat) (cache : List (String × Nat))
    (url : String) (v : Nat) (hl : List.lookup url cache = some v) :
    filesizeCached ht cache url = (.ok v, 0, cache) := by
  unfold filesizeCached
  rw [hl]

theorem seqFilesizeCached_hit (getBody : String → List Char)
    (ht : String → Nat → Option Nat) (cache : List (String × Nat))
    (url : String) (v : Nat) (hl : List.lookup url cache = some v) :
    seqFilesizeCached getBody ht cache url = (.ok v, 0, cache) := by
  unfold seqFilesizeCached
  rw [hl]

/-- C9: the memoized size resolvers are idempotent: once a call for a URL
has returned an integer, an immediately following call for the same URL is
a cache hit - it returns the same integer, issues zero HTTP requests, and
leaves the cache unchanged. -/
theorem size_resolvers_idempotent :
    (∀ (ht : String → Option Nat) (cache : List (String × Nat)) (url : String) (v : Nat),
      (filesizeCached ht cache url).1 = .ok v →
      filesizeCached ht (filesizeCached ht cache url).2.2 url
        = (.ok v, 0, (filesizeCached ht cache url).2.2)) ∧
    (∀ (getBody : String → List Char) (ht : String → Nat → Option Nat)
       (cache : List (String × Nat)) (url : String) (v : Nat),
      (seqFilesizeCached getBody ht cache url).1 = .ok v →
      seqFilesizeCached getBody ht (seqFilesizeCached getBody ht cache url).2.2 url
        = (.ok v, 0, (seqFilesizeCached getBody ht cache url).2.2)) := by
  constructor
  · intro ht cache url v hok
    cases hl : List.lookup url cache with
    | some w =>
      have h1 : filesizeCached ht cache url = (.ok w, 0, cache) :=
        filesizeCached_hit ht cache url w hl
      have hwv : w = v := by
        rw [h1] at hok
        simpa using hok
      subst hwv
      rw [h1]
      exact filesizeCached_hit ht cache url w hl
    | none =>
      cases hh : ht url with
      | some m =>
        have h1 : filesizeCached ht cache url = (.ok m, 1, (url, m) :: cache) := by
          unfold filesizeCached
          rw [hl, hh]
        have hmv : m = v := by
          rw [h1] at hok
          simpa using hok
        subst hmv
        rw [h1]
        exact filesizeCached_hit ht ((url, m) :: cache) url m (by simp [List.lookup])
      | none =>
        have h1 : filesizeCached ht cache url
            = (.error .contentLengthMissing, 1, cache) := by
          unfold filesizeCached
          rw [hl, hh]
        rw [h1] at hok
        simp at hok
  · intro getBody ht cache url v hok
    cases hl : List.lookup url cache with
    | some w =>
      have h1 : seqFilesizeCached getBody ht cache url = (.ok w, 0, cache) :=
        seqFilesizeCached_hit getBody ht cache url w hl
      have hwv : w = v := by
        rw [h1] at hok
        simpa using hok
      subst hwv
      rw [h1]
      exact seqFilesizeCached_hit getBody ht cache url w hl
    | none =>
      cases hh : (seqFilesizeRun (getBody url) (ht url)).2 with
      | ok m =>
        have h1 : seqFilesizeCached getBody ht cache url
            = (.ok m, 1 + (seqFilesizeRun (getBody url) (ht url)).1.length,
               (url, m) :: cache) := by
          unfold seqFilesizeCached
          rw [hl]
          dsimp only
          rw [hh]
        have hmv : m = v := by
          rw [h1] at hok
          simpa using hok
        subst hmv
        rw [h1]
        exact seqFilesizeCached_hit getBody ht ((url, m) :: cache) url m
          (by simp [List.lookup])
      | error e =>
        have h1 : seqFilesizeCached getBody ht cache url
            = (.error e, 1 + (seqFilesizeRun (getBody url) (ht url)).1.length, cache) := by
          unfold seqFilesizeCached
          rw [hl]
          dsimp only
          rw [hh]
        rw [h1] at hok
        simp at hok

/-- C9 witness: after a first resolution for URL `u`, the second call hits
the cache with zero requests. -/
theorem size_resolvers_idempotent_witness :
    filesizeCached (fun _ => some 42)
        (filesizeCached (fun _ => some 42) [] "u").2.2 "u"
      = (.ok 42, 0, (filesizeCached (fun _ => some 42) [] "u").2.2) ∧
    seqFilesizeCached (fun _ => "Segment-Count: 2".toList) (fun _ _ => some 5)
        (seqFilesizeCached (fun _ => "Segment-Count: 2".toList) (fun _ _ => some 5)
          [] "u").2.2 "u"
      = (.ok 26, 0,
         (seqFilesizeCached (fun _ => "Segment-Count: 2".toList) (fun _ _ => some 5)
           [] "u").2.2) :=
  ⟨size_resolvers_idempotent.1 (fun _ => some 42) [] "u" 42 rfl,
   size_resolvers_idempotent.2 (fun _ => "Segment-Count: 2".toList) (fun _ _ => some 5)
     [] "u" 26 rfl⟩

/-- C10: when segment 0 declares a segment count of zero - every matching
`Segment-Count` line parses to 0 - `seq_filesize` nevertheless raises the
pattern-not-matched error, because a parsed count of 0 is indistinguishable
from the no-match sentinel; it never returns for a declared count of zero. -/
theorem seq_filesize_never_returns_zero_count (seg0 : List Char) (ht : Nat → Option Nat)
    (_hne : (splitCRLF seg0).filterMap segCountSearch ≠ [])
    (hzero : ∀ v ∈ (splitCRLF seg0).filterMap segCountSearch, v = 0) :
    seqFilesizeRun seg0 ht = ([], .error (.regexMatch "seq_filesize" segCountPattern)) := by
  have hcnt : seqFilesizeSegmentCount (splitCRLF seg0) = 0 := by
    rw [seqFilesizeSegmentCount_eq]
    cases h : ((splitCRLF seg0).filterMap segCountSearch).getLast? with
    | none => rfl
    | some w =>
      have hv := hzero w (List.mem_of_mem_getLast? h)
      rw [hv]
      rfl
  unfold seqFilesizeRun
  rw [hcnt]
  simp

/-- C10 witness: a body declaring `Segment-Count: 0` on its second line. -/
theorem seq_filesize_never_returns_zero_count_witness :
    seqFilesizeRun c10Body (fun _ => some 3)
      = ([], .error (.regexMatch "seq_filesize" segCountPattern)) :=
  seq_filesize_never_returns_zero_count c10Body (fun _ => some 3) (by decide) (by decide)

theorem chunksConcat_flatten (L : List (List Event)) :
    chunksConcat L.flatten = (L.map chunksConcat).flatten := by
  induction L with
  | nil => rfl
  | cons x xs ih =>
    rw [List.flatten_cons, chunksConcat_append, ih, List.map_cons, List.flatten_cons]

/-- C7: for every segmented resource whose segment 0 declares segment count
`N`, `seq_stream` on an always-succeeding transport finishes, and its trace
is exactly the concatenation of per-segment traces for segments
`0, 1, ..., N` in that order - so segments are fetched with no gaps,
duplicates or reordering, and segment `k + 1`'s first request comes only
after all of segment `k`'s trace, including every chunk it yields; each
segment's trace yields exactly that segment's bytes and addresses only that
segment's `sq`, and the total yielded bytes are the segments concatenated
in order. -/
theorem seq_stream_segments_in_order (segs : Nat → List Char) (base : String)
    (c mr fuel N : Nat) (hc : 0 < c)
    (hcount : seqStreamSegmentCount (splitCRLF (segs 0)) = some N)
    (hfuel : ∀ k, (segs k).length < fuel)
    (hbig : ∀ k, (segs k).length ≤ 99999999999) :
    ∃ traces : Nat → List Event,
      seqStreamRun (honestSeqTransport segs) c mr fuel base
        = (((List.range (N + 1)).map traces).flatten, .finished) ∧
      (∀ k, k ≤ N → chunksConcat (traces k) = segs k ∧
        (∀ q ∈ reqSqs (traces k), q = some k) ∧ reqSqs (traces k) ≠ []) ∧
      chunksConcat (((List.range (N + 1)).map traces).flatten)
        = ((List.range (N + 1)).map segs).flatten := by
  obtain ⟨evs0, n0, heq0, hconcat0, _, _, hsqs0, hne0, _, _⟩ :=
    streamLoop_honest_run segs ⟨base, some 0⟩ c mr fuel 0 hc (hfuel 0) (hbig 0)
  obtain ⟨traces', n'', heq', hprops'⟩ :=
    seqLoop_honest segs base c mr fuel hc hfuel hbig N 1 n0
  have hall : ∀ k, k ≤ N →
      chunksConcat (if k = 0 then evs0 else traces' k) = segs k ∧
      (∀ q ∈ reqSqs (if k = 0 then evs0 else traces' k), q = some k) ∧
      reqSqs (if k = 0 then evs0 else traces' k) ≠ [] := by
    intro k hk
    by_cases hk0 : k = 0
    · subst hk0
      rw [if_pos rfl]
      exact ⟨hconcat0, hsqs0, hne0⟩
    · obtain ⟨j, rfl⟩ : ∃ j, k = 1 + j := ⟨k - 1, by omega⟩
      rw [if_neg hk0]
      exact hprops' j (by omega)
  have hmapeq : (List.range (N + 1)).map (fun k => if k = 0 then evs0 else traces' k)
      = evs0 :: (List.range N).map (fun i => traces' (1 + i)) := by
    rw [List.range_succ_eq_map, List.map_cons, List.map_map]
    congr 1
    apply List.map_congr_left
    intro i _
    simp only [Function.comp]
    rw [if_neg (Nat.succ_ne_zero i)]
    congr 1
    omega
  refine ⟨fun k => if k = 0 then evs0 else traces' k, ?_, hall, ?_⟩
  · unfold seqStreamRun
    rw [heq0]
    dsimp only
    rw [show chunksConcat evs0 = segs 0 from hconcat0, hcount]
    dsimp only
    rw [heq']
    dsimp only
    rw [hmapeq, List.flatten_cons]
  · rw [chunksConcat_flatten, List.map_map]
    congr 1
    apply List.map_congr_left
    intro k hkmem
    have hk : k ≤ N := by
      have := List.mem_range.mp hkmem
      omega
    simp only [Function.comp]
    exact (hall k hk).1

/-- C7 witness: a resource declaring two further segments. -/
theorem seq_stream_segments_in_order_witness :
    ∃ traces : Nat → List Event,
      seqStreamRun (honestSeqTransport c7Segs) 100 0 60 "http://s"
        = (((List.range (2 + 1)).map traces).flatten, .finished) ∧
      (∀ k, k ≤ 2 → chunksConcat (traces k) = c7Segs k ∧
        (∀ q ∈ reqSqs (traces k), q = some k) ∧ reqSqs (traces k) ≠ []) ∧
      chunksConcat (((List.range (2 + 1)).map traces).flatten)
        = ((List.range (2 + 1)).map c7Segs).flatten :=
  seq_stream_segments_in_order c7Segs "http://s" 100 0 60 2 (by decide) (by decide)
    (by intro k; cases k with
        | zero => decide
        | succ m => simp [c7Segs])
    (by intro k; cases k with
        | zero => decide
        | succ m => simp [c7Segs])
